import Mathlib

/-!
Shallow embedding of the hqp-control repository's core logic
(src/hqp/profiles.py and src/hqp/xml_client.py) and proofs about it.

Modelling conventions:
* Python strings (and the byte strings of the liveness probe) are `List Char`.
* Python floats are modelled exactly: a value obtained from float(text)
  is a finite decimal (mantissa and power-of-ten exponent over `Int`),
  an explicit infinity, or NaN; volume arithmetic is over `ℚ`.  Binary
  rounding of the IEEE double is not modelled; every concrete input used
  below denotes a value far from an integer boundary, where rounding
  cannot change a truncation.
* The abstract transport of `BaseProfileManager` (`_copy_file`,
  `_run_command`, `_list_files`, `_get_file_hash`) is an explicit
  environment of functions, and the socket exchange of the liveness probe
  is its outcome: either a socket-level error or the received bytes.
* Externally visible actions of `switch_profile` are recorded in an event
  trace so that "the restart command is never executed" and "the liveness
  probe is never invoked" are statements about the trace.
-/

/-- Python strings are modelled as lists of characters. -/
abbrev Str := List Char

/-- The fixed profile extension ".xml" (profiles.py uses the literal). -/
def xmlExt : Str := ".xml".toList

/-- Python `filename.endswith(".xml")`. -/
def endsWithXml (f : Str) : Bool := decide (xmlExt <:+ f)

/-- Python `filename[:-4]`: all characters but the last four. -/
def stripXml (f : Str) : Str := f.take (f.length - 4)

/-- Python f-string `f"{dir}/{f}"`. -/
def joinPath (dir f : Str) : Str := dir ++ '/' :: f

/-- Profile record of models.py: a display name and an on-disk path. -/
structure Profile where
  name : Str
  path : Str
deriving DecidableEq, Repr

/-- BaseProfileManager.list_profiles: keep the file names ending in ".xml",
strip the extension for the name, and qualify the path. -/
def listProfiles (profilesPath : Str) : List Str → List Profile
  | [] => []
  | f :: rest =>
    if endsWithXml f then
      ⟨stripXml f, joinPath profilesPath f⟩ :: listProfiles profilesPath rest
    else
      listProfiles profilesPath rest

/-- Socket-level failures of the liveness probe's one-shot exchange. -/
inductive SockErr where
  | refused
  | reset
  | timeout
deriving DecidableEq, Repr

/-- Marker of the expected root tag, Python `b"<Status" in response`. -/
def statusMarker : Str := "<Status".toList

/-- Marker of the state attribute, Python `b"state=" in response`. -/
def stateMarker : Str := "state=".toList

/-- BaseProfileManager._check_hqplayer_alive: the socket exchange either
fails at socket level (caught, returning false) or yields the raw response
bytes, judged by the two substring checks. -/
def checkHqplayerAlive (resp : Except SockErr Str) : Bool :=
  match resp with
  | .error _ => false
  | .ok r => decide (statusMarker <:+: r) && decide (stateMarker <:+: r)

example : checkHqplayerAlive (.ok "<Status state=\"0\"/>".toList) = true := by decide
example : checkHqplayerAlive (.ok "<Status/>".toList) = false := by decide
example : checkHqplayerAlive (.error .timeout) = false := by rfl
example : listProfiles "p".toList ["a.xml".toList, "b.txt".toList] =
    [⟨"a".toList, "p/a.xml".toList⟩] := by decide

/-- Abstract transport environment of BaseProfileManager: the constructor
configuration plus the abstract capabilities (`_copy_file`, `_run_command`,
`_list_files` at the profiles directory, `_get_file_hash`), and the
outcomes of successive liveness probes during a wait. -/
structure ManagerEnv where
  profilesPath : Str
  configPath : Str
  copyFile : Str → Str → Bool
  runCommand : Str → Str × Str × Int
  listFiles : List Str
  fileHash : Str → Option Str
  aliveAt : Nat → Bool
  waitTimeout : ℚ
  pollInterval : ℚ

/-- Externally visible actions of a profile switch, recorded in order. -/
inductive Event where
  | copy (src dst : Str)
  | run (cmd : Str)
  | probe
deriving DecidableEq, Repr

/-- The fixed restart command of switch_profile. -/
def restartCmd : Str := "sudo systemctl restart hqplayerd".toList

/-- Number of liveness polls that fit before `wait_timeout` elapses when
probes happen at instants 0, p, 2p, ... of idealised monotonic time
(poll k runs while k * pollInterval < waitTimeout, so the count is the
ceiling of the quotient; `_wait_for_hqplayer` measures real elapsed time,
idealised here). -/
def numPolls (timeout poll : ℚ) : Nat := (Int.ceil (timeout / poll)).toNat

/-- Poll loop of `_wait_for_hqplayer`: probe, return true on the first
live probe, give up when the poll budget is exhausted. -/
def waitLoop (alive : Nat → Bool) : Nat → Nat → Bool × List Event
  | 0, _ => (false, [])
  | n + 1, k =>
    if alive k then (true, [Event.probe])
    else
      let r := waitLoop alive n (k + 1)
      (r.1, Event.probe :: r.2)

/-- BaseProfileManager._wait_for_hqplayer under the idealised clock. -/
def waitForHqplayer (env : ManagerEnv) : Bool × List Event :=
  waitLoop env.aliveAt (numPolls env.waitTimeout env.pollInterval) 0

/-- BaseProfileManager.switch_profile: copy the candidate over the config
(short-circuit on failure), run the restart command (short-circuit on a
non-zero exit code), then either wait for liveness or return true at once.
The second component is the trace of externally visible actions. -/
def switchProfile (env : ManagerEnv) (name : Str) (wait : Bool) :
    Bool × List Event :=
  let profilePath := joinPath env.profilesPath (name ++ xmlExt)
  if env.copyFile profilePath env.configPath = false then
    (false, [Event.copy profilePath env.configPath])
  else
    let code := (env.runCommand restartCmd).2.2
    if code ≠ 0 then
      (false, [Event.copy profilePath env.configPath, Event.run restartCmd])
    else if wait then
      let w := waitForHqplayer env
      (w.1, Event.copy profilePath env.configPath :: Event.run restartCmd :: w.2)
    else
      (true, [Event.copy profilePath env.configPath, Event.run restartCmd])

/-- Loop body of get_current_profile: skip names not ending in ".xml",
return the stripped name of the first file whose hash equals the config's
hash. -/
def findMatching (env : ManagerEnv) (hc : Option Str) : List Str → Option Str
  | [] => none
  | f :: rest =>
    if endsWithXml f then
      if env.fileHash (joinPath env.profilesPath f) = hc then
        some (stripXml f)
      else
        findMatching env hc rest
    else
      findMatching env hc rest

/-- BaseProfileManager.get_current_profile: hash the config (Python
`if not current_hash` treats both a missing hash and an empty string as
absent), then scan the listing for the first checksum match. -/
def getCurrentProfile (env : ManagerEnv) : Option Str :=
  match env.fileHash env.configPath with
  | none => none
  | some h => if h = [] then none else findMatching env (some h) env.listFiles

/-- Value of a Python float: a finite decimal `m * 10 ^ e` (exact, with
`m` carrying the sign), a signed infinity, or NaN. -/
inductive PyFloat where
  | finite (m e : Int)
  | inf (neg : Bool)
  | nan
deriving DecidableEq, Repr

/-- Errors a parse can raise in xml_client.py: the uncaught OverflowError
of `int(float("inf"))`, the ValueError of an unparseable float, and the
ValueError raised on a root tag other than Status. -/
inductive ParseErr where
  | overflow
  | valueErr
  | wrongTag (t : Str)
deriving DecidableEq, Repr

/-- Whitespace stripped by Python's float() around the number. -/
def isWs (c : Char) : Bool := c = ' ' || c = '\t' || c = '\n' || c = '\r'

/-- Strip leading and trailing whitespace. -/
def stripWs (s : Str) : Str :=
  ((s.dropWhile isWs).reverse.dropWhile isWs).reverse

/-- Consume an optional leading sign; the flag is true for a minus. -/
def splitSign : Str → Bool × Str
  | [] => (false, [])
  | c :: r =>
    if c = '-' then (true, r)
    else if c = '+' then (false, r)
    else (false, c :: r)

/-- Numeric value of a decimal digit. -/
def digitVal (c : Char) : Nat := c.toNat - '0'.toNat

/-- Value of a string of decimal digits, most significant first. -/
def digitsToNat (s : Str) : Nat := s.foldl (fun a c => 10 * a + digitVal c) 0

/-- Parse an optional exponent suffix (the whole rest must be consumed):
nothing, or `e`/`E`, an optional sign and at least one digit. -/
def parseExp : Str → Option Int
  | [] => some 0
  | c :: r =>
    if c = 'e' ∨ c = 'E' then
      let sn := splitSign r
      let ds := sn.2.takeWhile Char.isDigit
      let rest := sn.2.dropWhile Char.isDigit
      if ds = [] ∨ rest ≠ [] then none
      else some (if sn.1 then -(digitsToNat ds : Int) else (digitsToNat ds : Int))
    else none

/-- Parse an unsigned decimal literal as Python's float() accepts it:
digits, an optional point with further digits (at least one digit in
total), and an optional exponent; the whole string must be consumed.
The result is the exact value as mantissa and power-of-ten exponent. -/
def parseDecimal (s : Str) : Option (Nat × Int) :=
  let ip := s.takeWhile Char.isDigit
  let r1 := s.dropWhile Char.isDigit
  let fr : Str × Str :=
    match r1 with
    | '.' :: r => (r.takeWhile Char.isDigit, r.dropWhile Char.isDigit)
    | _ => ([], r1)
  if ip = [] ∧ fr.1 = [] then none
  else
    match parseExp fr.2 with
    | none => none
    | some e => some (digitsToNat (ip ++ fr.1), e - fr.1.length)

/-- Lowercase a string character by character. -/
def lowerStr (s : Str) : Str := s.map Char.toLower

/-- Python's float(string): strip whitespace, read an optional sign, then
either a decimal literal or (case-insensitively) inf/infinity/nan; `none`
is the ValueError of an unaccepted string.  Exact-decimal model of the
finite values; digit-group underscores are not modelled (no claim uses
them). -/
def pyFloatParse (s : Str) : Option PyFloat :=
  let sn := splitSign (stripWs s)
  match parseDecimal sn.2 with
  | some me =>
    some (.finite (if sn.1 then -(me.1 : Int) else (me.1 : Int)) me.2)
  | none =>
    let l := lowerStr sn.2
    if l = "inf".toList ∨ l = "infinity".toList then some (.inf sn.1)
    else if l = "nan".toList then some .nan
    else none

/-- Python's int() applied to a finite float truncates toward zero: a
nonnegative exponent scales up, a negative one divides the mantissa by a
power of ten with `Int.tdiv`, the division that rounds toward zero. -/
def truncFinite (m e : Int) : Int :=
  if 0 ≤ e then m * (10 : Int) ^ e.toNat else m.tdiv ((10 : Int) ^ (-e).toNat)

/-- xml_client._parse_int: the empty string is falsy and yields the
default; a string float() rejects raises ValueError, caught, yielding the
default; NaN makes int() raise ValueError, caught likewise; a finite
value is truncated toward zero; an infinity makes int() raise
OverflowError, which the `except (ValueError, TypeError)` clause does not
catch, so it escapes to the caller. -/
def parseIntE (value : Str) (dflt : Int) : Except ParseErr Int :=
  if value = [] then .ok dflt
  else
    match pyFloatParse value with
    | none => .ok dflt
    | some (.finite m e) => .ok (truncFinite m e)
    | some .nan => .ok dflt
    | some (.inf _) => .error .overflow

deriving instance DecidableEq for Except

example : parseIntE "75.0".toList 0 = .ok 75 := by decide
example : parseIntE "-2.5".toList 0 = .ok (-2) := by decide
example : parseIntE "".toList 7 = .ok 7 := by decide
example : parseIntE "abc".toList 0 = .ok 0 := by decide
example : parseIntE "inf".toList 0 = .error .overflow := by decide
example : parseIntE "-Infinity".toList 0 = .error .overflow := by decide
example : parseIntE "nan".toList 3 = .ok 3 := by decide
example : parseIntE "1.5e2".toList 0 = .ok 150 := by decide
example : parseIntE " 42 ".toList 0 = .ok 42 := by decide
example : pyFloatParse "75.0".toList = some (.finite 750 (-1)) := by decide

/-- Result of ElementTree parsing that the decoders consume: the root
element's tag, its attribute dictionary (unique keys, insertion order)
and its inner text (absent when the element has no text node). -/
structure XmlElem where
  tag : Str
  attrs : List (Str × Str)
  text : Option Str
deriving DecidableEq, Repr

/-- Python `root.attrib.get(key)`: first binding of the key, if any. -/
def getAttr : List (Str × Str) → Str → Option Str
  | [], _ => none
  | (k, v) :: rest, key => if k = key then some v else getAttr rest key

/-- Python `root.attrib.get(key, dflt)`. -/
def getAttrD (attrs : List (Str × Str)) (key dflt : Str) : Str :=
  (getAttr attrs key).getD dflt

/-- The attribute key "result". -/
def resultKey : Str := "result".toList

/-- The literal "OK" of the success test. -/
def okTok : Str := "OK".toList

/-- xml_client.parse_result_xml: `result == "OK"` is the success test;
otherwise `root.text or result` picks the message, where Python's `or`
passes over an absent text and over an empty text string. -/
def parseResultXml (root : XmlElem) : Bool × Option Str :=
  let result := getAttrD root.attrs resultKey []
  if result = okTok then (true, none)
  else
    let errorText :=
      match root.text with
      | some t => if t = [] then result else t
      | none => result
    (false, some errorText)

/-- Status record of models.py (HQPStatus), with the types the parse in
xml_client.py produces: `volume` comes straight from float(), everything
else numeric through _parse_int. -/
structure HQPStatus where
  state : Int
  volume : PyFloat
  track : Int
  tracks_total : Int
  position : Int
  length : Int
  min : Int
  sec : Int
  remain_min : Int
  remain_sec : Int
  total_min : Int
  total_sec : Int
  active_mode : Str
  active_filter : Str
  active_shaper : Str
  active_rate : Int
  active_bits : Int
  active_channels : Int
  queued : Int
  input_fill : Int
  output_fill : Int
  output_delay : Int
  random : Int
  «repeat» : Int
  clips : Int
  track_serial : Int
  transport_serial : Int

/-- Python `float(attrs.get("volume", 0))`: the absent attribute gives
the number 0 directly; a present value goes through float(), whose
ValueError is not caught anywhere in parse_status_xml. -/
def parseVolume (attrs : List (Str × Str)) : Except ParseErr PyFloat :=
  match getAttr attrs "volume".toList with
  | none => .ok (.finite 0 0)
  | some s =>
    match pyFloatParse s with
    | none => .error .valueErr
    | some f => .ok f

/-- xml_client.parse_status_xml after ElementTree has produced the root
element (malformed markup fails before this function's own logic): reject
a root tag other than Status, then convert each attribute in the order of
the HQPStatus constructor call, every integer through _parse_int with
default "0", volume through float(), the labels defaulting to "". -/
def parseStatusXml (root : XmlElem) : Except ParseErr HQPStatus :=
  if root.tag = "Status".toList then do
    let state ← parseIntE (getAttrD root.attrs "state".toList "0".toList) 0
    let volume ← parseVolume root.attrs
    let track ← parseIntE (getAttrD root.attrs "track".toList "0".toList) 0
    let tracksTotal ← parseIntE (getAttrD root.attrs "tracks_total".toList "0".toList) 0
    let position ← parseIntE (getAttrD root.attrs "position".toList "0".toList) 0
    let length ← parseIntE (getAttrD root.attrs "length".toList "0".toList) 0
    let minv ← parseIntE (getAttrD root.attrs "min".toList "0".toList) 0
    let secv ← parseIntE (getAttrD root.attrs "sec".toList "0".toList) 0
    let remainMin ← parseIntE (getAttrD root.attrs "remain_min".toList "0".toList) 0
    let remainSec ← parseIntE (getAttrD root.attrs "remain_sec".toList "0".toList) 0
    let totalMin ← parseIntE (getAttrD root.attrs "total_min".toList "0".toList) 0
    let totalSec ← parseIntE (getAttrD root.attrs "total_sec".toList "0".toList) 0
    let activeRate ← parseIntE (getAttrD root.attrs "active_rate".toList "0".toList) 0
    let activeBits ← parseIntE (getAttrD root.attrs "active_bits".toList "0".toList) 0
    let activeChannels ← parseIntE (getAttrD root.attrs "active_channels".toList "0".toList) 0
    let queued ← parseIntE (getAttrD root.attrs "queued".toList "0".toList) 0
    let inputFill ← parseIntE (getAttrD root.attrs "input_fill".toList "0".toList) 0
    let outputFill ← parseIntE (getAttrD root.attrs "output_fill".toList "0".toList) 0
    let outputDelay ← parseIntE (getAttrD root.attrs "output_delay".toList "0".toList) 0
    let randomv ← parseIntE (getAttrD root.attrs "random".toList "0".toList) 0
    let repeatv ← parseIntE (getAttrD root.attrs "repeat".toList "0".toList) 0
    let clips ← parseIntE (getAttrD root.attrs "clips".toList "0".toList) 0
    let trackSerial ← parseIntE (getAttrD root.attrs "track_serial".toList "0".toList) 0
    let transportSerial ← parseIntE (getAttrD root.attrs "transport_serial".toList "0".toList) 0
    .ok {
      state := state
      volume := volume
      track := track
      tracks_total := tracksTotal
      position := position
      length := length
      min := minv
      sec := secv
      remain_min := remainMin
      remain_sec := remainSec
      total_min := totalMin
      total_sec := totalSec
      active_mode := getAttrD root.attrs "active_mode".toList []
      active_filter := getAttrD root.attrs "active_filter".toList []
      active_shaper := getAttrD root.attrs "active_shaper".toList []
      active_rate := activeRate
      active_bits := activeBits
      active_channels := activeChannels
      queued := queued
      input_fill := inputFill
      output_fill := outputFill
      output_delay := outputDelay
      random := randomv
      «repeat» := repeatv
      clips := clips
      track_serial := trackSerial
      transport_serial := transportSerial
    }
  else
    .error (.wrongTag root.tag)

/-- Status with every field at the default the parse produces when the
attribute dictionary is empty. -/
def defaultStatus : HQPStatus where
  state := 0
  volume := .finite 0 0
  track := 0
  tracks_total := 0
  position := 0
  length := 0
  min := 0
  sec := 0
  remain_min := 0
  remain_sec := 0
  total_min := 0
  total_sec := 0
  active_mode := []
  active_filter := []
  active_shaper := []
  active_rate := 0
  active_bits := 0
  active_channels := 0
  queued := 0
  input_fill := 0
  output_fill := 0
  output_delay := 0
  random := 0
  «repeat» := 0
  clips := 0
  track_serial := 0
  transport_serial := 0

example : parseStatusXml ⟨"Status".toList, [], none⟩ = .ok defaultStatus := rfl
example : parseStatusXml ⟨"Status".toList, [("track".toList, "75.0".toList)], none⟩ =
    .ok { defaultStatus with track := 75 } := rfl
example : parseStatusXml ⟨"Volume".toList, [], none⟩ = .error (.wrongTag "Volume".toList) := rfl

example : parseResultXml ⟨"Volume".toList, [("result".toList, "OK".toList)], none⟩ =
    (true, none) := by decide
example : parseResultXml ⟨"Play".toList, [("result".toList, "Error".toList)],
    some "X".toList⟩ = (false, some "X".toList) := by decide
example : parseResultXml ⟨"Play".toList, [], none⟩ = (false, some []) := by decide

/-- Volume bounds of HQPClient (constructor defaults -40.0 and 0.0). -/
structure VolumeCfg where
  volumeMin : ℚ
  volumeMax : ℚ

/-- The HQPClient constructor defaults. -/
def defaultVolumeCfg : VolumeCfg := ⟨-40, 0⟩

/-- Value HQPClient.volume_up sends: `min(status.volume + step,
volume_max)` — clamped at the top only. -/
def volumeUpValue (cfg : VolumeCfg) (v step : ℚ) : ℚ :=
  min (v + step) cfg.volumeMax

/-- Value HQPClient.volume_down sends: `max(status.volume - step,
volume_min)` — clamped at the bottom only. -/
def volumeDownValue (cfg : VolumeCfg) (v step : ℚ) : ℚ :=
  max (v - step) cfg.volumeMin

/-- Python str.replace for a single-character pattern, the only form
playlist_add uses: every occurrence of the character becomes the
replacement, left to right. -/
def pyReplaceChar (pat : Char) (rep : Str) : Str → Str
  | [] => []
  | c :: rest => (if c = pat then rep else [c]) ++ pyReplaceChar pat rep rest

/-- The escape chain of HQPClient.playlist_add, in the code's order:
ampersand first, then angle brackets, then the double quote. -/
def escapeUri (uri : Str) : Str :=
  pyReplaceChar '"' "&quot;".toList
    (pyReplaceChar '>' "&gt;".toList
      (pyReplaceChar '<' "&lt;".toList
        (pyReplaceChar '&' "&amp;".toList uri)))

/-- The emitted element, Python f-string
`<PlaylistAdd uri="{uri_escaped}"/>`: the attribute is double-quoted. -/
def playlistAddCmd (uri : Str) : Str :=
  "<PlaylistAdd uri=\"".toList ++ escapeUri uri ++ "\"/>".toList

/-- Character-level form of the whole escape chain. -/
def escChar (c : Char) : Str :=
  if c = '&' then "&amp;".toList
  else if c = '<' then "&lt;".toList
  else if c = '>' then "&gt;".toList
  else if c = '"' then "&quot;".toList
  else [c]

/-- Expand every character of a string through `f`. -/
def expandAll (f : Char → Str) : Str → Str
  | [] => []
  | c :: rest => f c ++ expandAll f rest

/-- Every ampersand in the string opens one of the four entities the
escape emits; true also of a string with no ampersand at all. -/
def ampSafe : Str → Bool
  | [] => true
  | c :: rest =>
    if c = '&' then
      match rest with
      | 'a' :: 'm' :: 'p' :: ';' :: r => ampSafe r
      | 'l' :: 't' :: ';' :: r => ampSafe r
      | 'g' :: 't' :: ';' :: r => ampSafe r
      | 'q' :: 'u' :: 'o' :: 't' :: ';' :: r => ampSafe r
      | _ => false
    else ampSafe rest

example : escapeUri "a&b<c>d\"e".toList = "a&amp;b&lt;c&gt;d&quot;e".toList := by decide
example : ampSafe "a&amp;b&lt;c&gt;d&quot;e".toList = true := by decide
example : ampSafe "a&b".toList = false := by decide

/-- A digit character differs from any non-digit character. -/
theorem isDigit_ne (c : Char) (h : c.isDigit = true) (x : Char)
    (hx : x.isDigit = false) : c ≠ x := by
  intro he
  subst he
  rw [h] at hx
  cases hx

/-- A digit character's numeric value is at most 9. -/
theorem digitVal_le (c : Char) (h : c.isDigit = true) : digitVal c ≤ 9 := by
  simp [Char.isDigit] at h
  obtain ⟨h1, h2⟩ := h
  have h3 : c.toNat ≤ 57 := UInt32.toNat_le_of_le (by decide) h2
  have e1 : '0'.toNat = 48 := by decide
  rw [digitVal, e1]
  omega

/-- Digit characters are not whitespace. -/
theorem isDigit_not_ws (c : Char) (h : c.isDigit = true) : isWs c = false := by
  have h1 := isDigit_ne c h ' ' (by decide)
  have h2 := isDigit_ne c h '\t' (by decide)
  have h3 := isDigit_ne c h '\n' (by decide)
  have h4 := isDigit_ne c h '\r' (by decide)
  simp [isWs, h1, h2, h3, h4]

/-- dropWhile does nothing when no element satisfies the predicate. -/
theorem dropWhile_eq_self {p : Char → Bool} {s : Str}
    (h : ∀ c ∈ s, p c = false) : s.dropWhile p = s := by
  cases s with
  | nil => rfl
  | cons c t => simp [List.dropWhile_cons, h c (by simp)]

/-- stripWs does nothing to a string with no whitespace. -/
theorem stripWs_eq_self {s : Str} (h : ∀ c ∈ s, isWs c = false) :
    stripWs s = s := by
  unfold stripWs
  rw [dropWhile_eq_self h, dropWhile_eq_self (by intro c hc; exact h c (List.mem_reverse.mp hc)),
    List.reverse_reverse]

/-- takeWhile and dropWhile across a block of satisfying characters
followed by one that fails the predicate. -/
theorem takeWhile_dropWhile_append {p : Char → Bool} (a : Str) (x : Char)
    (b : Str) (ha : ∀ c ∈ a, p c = true) (hx : p x = false) :
    (a ++ x :: b).takeWhile p = a ∧ (a ++ x :: b).dropWhile p = x :: b := by
  induction a with
  | nil => simp [List.takeWhile_cons, List.dropWhile_cons, hx]
  | cons c t ih =>
    have hc : p c = true := ha c (by simp)
    have iht := ih (by intro d hd; exact ha d (by simp [hd]))
    simp [List.takeWhile_cons, List.dropWhile_cons, hc, iht.1, iht.2]

/-- takeWhile and dropWhile on a string every character of which
satisfies the predicate. -/
theorem takeWhile_dropWhile_all {p : Char → Bool} (b : Str)
    (hb : ∀ c ∈ b, p c = true) : b.takeWhile p = b ∧ b.dropWhile p = [] := by
  induction b with
  | nil => simp
  | cons c t ih =>
    have hc : p c = true := hb c (by simp)
    have iht := ih (by intro d hd; exact hb d (by simp [hd]))
    simp [List.takeWhile_cons, List.dropWhile_cons, hc, iht.1, iht.2]

/-- Folding digits onto an accumulator is scaling plus the digits' value. -/
theorem digitsFold (b : Str) (init : Nat) :
    b.foldl (fun a c => 10 * a + digitVal c) init =
      init * 10 ^ b.length + digitsToNat b := by
  induction b generalizing init with
  | nil => simp [digitsToNat]
  | cons c t ih =>
    have h1 : digitsToNat (c :: t) = t.foldl (fun a c => 10 * a + digitVal c) (digitVal c) := by
      simp [digitsToNat]
    rw [List.foldl_cons, ih (10 * init + digitVal c), h1, ih (digitVal c)]
    simp [List.length_cons]
    ring

/-- Value of concatenated digit strings. -/
theorem digitsToNat_append (a b : Str) :
    digitsToNat (a ++ b) = digitsToNat a * 10 ^ b.length + digitsToNat b := by
  have : digitsToNat (a ++ b) = b.foldl (fun x c => 10 * x + digitVal c) (digitsToNat a) := by
    simp [digitsToNat, List.foldl_append]
  rw [this, digitsFold]

/-- A digit string's value is below ten to its length. -/
theorem digitsToNat_lt (b : Str) (hb : ∀ c ∈ b, c.isDigit = true) :
    digitsToNat b < 10 ^ b.length := by
  induction b with
  | nil => simp [digitsToNat]
  | cons c t ih =>
    have h1 : digitsToNat (c :: t) = digitVal c * 10 ^ t.length + digitsToNat t := by
      have : digitsToNat (c :: t) = t.foldl (fun a c => 10 * a + digitVal c) (digitVal c) := by
        simp [digitsToNat]
      rw [this, digitsFold]
    have h2 := digitVal_le c (hb c (by simp))
    have h3 := ih (by intro d hd; exact hb d (by simp [hd]))
    have h4 : (0:Nat) < 10 ^ t.length := Nat.pos_pow_of_pos _ (by omega)
    calc digitsToNat (c :: t) = digitVal c * 10 ^ t.length + digitsToNat t := h1
      _ < digitVal c * 10 ^ t.length + 10 ^ t.length := by omega
      _ = (digitVal c + 1) * 10 ^ t.length := by ring
      _ ≤ 10 * 10 ^ t.length := Nat.mul_le_mul_right _ (by omega)
      _ = 10 ^ (c :: t).length := by rw [List.length_cons]; ring

/-- C1: switch_profile performs its steps in order and short-circuits.
When the copy of the candidate file onto configPath fails it returns
false and its trace holds no command execution (the restart is never
run) and no probe; when the copy succeeds but the restart exits non-zero
it returns false; when both succeed and wait is false it returns true
with a trace of exactly the copy and the restart, no probe (the liveness
probe is never invoked). -/
theorem c1_switch_profile_short_circuit (env : ManagerEnv) (name : Str)
    (wait : Bool) :
    (env.copyFile (joinPath env.profilesPath (name ++ xmlExt)) env.configPath = false →
      switchProfile env name wait =
        (false, [Event.copy (joinPath env.profilesPath (name ++ xmlExt)) env.configPath]) ∧
      (∀ c, Event.run c ∉ (switchProfile env name wait).2) ∧
      Event.probe ∉ (switchProfile env name wait).2) ∧
    (env.copyFile (joinPath env.profilesPath (name ++ xmlExt)) env.configPath = true →
      (env.runCommand restartCmd).2.2 ≠ 0 →
      (switchProfile env name wait).1 = false ∧
      Event.probe ∉ (switchProfile env name wait).2) ∧
    (env.copyFile (joinPath env.profilesPath (name ++ xmlExt)) env.configPath = true →
      (env.runCommand restartCmd).2.2 = 0 →
      switchProfile env name false =
        (true, [Event.copy (joinPath env.profilesPath (name ++ xmlExt)) env.configPath,
          Event.run restartCmd]) ∧
      Event.probe ∉ (switchProfile env name false).2) := by
  refine ⟨fun h => ?_, fun h hc => ?_, fun h hc => ?_⟩
  · simp [switchProfile, h]
  · simp [switchProfile, h, hc]
  · simp [switchProfile, h, hc]

/-- C4: the liveness probe judges a received response true exactly when
it contains both the root-tag marker and the state attribute marker, and
judges any socket-level failure (refused, reset or timeout) false —
the caller sees a negative result, not an exception. -/
theorem c4_liveness_probe (r : Str) (e : SockErr) :
    (checkHqplayerAlive (.ok r) = true ↔
      statusMarker <:+: r ∧ stateMarker <:+: r) ∧
    checkHqplayerAlive (.error e) = false := by
  constructor
  · simp [checkHqplayerAlive]
  · rfl

/-- The defaulted result attribute equals "OK" exactly when the attribute
is present with that literal value (the default is the empty string). -/
theorem getAttrD_result_ok (attrs : List (Str × Str)) :
    getAttrD attrs resultKey [] = okTok ↔
      getAttr attrs resultKey = some okTok := by
  cases h : getAttr attrs resultKey with
  | none =>
    simp [getAttrD, h]
    decide
  | some v => simp [getAttrD, h]

/-- C5: parse_result_xml returns ok with an absent message exactly when
the root's result attribute is literally "OK"; any other value, an
absent attribute included, gives a failure whose message is the inner
text when present and non-empty, else the raw defaulted attribute value;
the spec's two examples are computed. -/
theorem c5_parse_result_xml (root : XmlElem) :
    ((parseResultXml root).1 = true ↔
      getAttr root.attrs resultKey = some okTok) ∧
    ((parseResultXml root).1 = true → (parseResultXml root).2 = none) ∧
    (∀ t, root.text = some t → t ≠ [] →
      getAttr root.attrs resultKey ≠ some okTok →
      parseResultXml root = (false, some t)) ∧
    ((root.text = none ∨ root.text = some []) →
      getAttr root.attrs resultKey ≠ some okTok →
      parseResultXml root = (false, some (getAttrD root.attrs resultKey []))) ∧
    parseResultXml ⟨"Volume".toList, [(resultKey, okTok)], none⟩ =
      (true, none) ∧
    parseResultXml ⟨"Play".toList, [(resultKey, "Error".toList)],
      some "X".toList⟩ = (false, some "X".toList) := by
  refine ⟨?_, ?_, ?_, ?_, by decide, by decide⟩
  · by_cases h : getAttrD root.attrs resultKey [] = okTok
    · simp [parseResultXml, h, (getAttrD_result_ok root.attrs).mp h]
    · have h2 := (getAttrD_result_ok root.attrs).not.mp h
      simp [parseResultXml, h, h2]
  · intro h1
    by_cases h : getAttrD root.attrs resultKey [] = okTok
    · simp [parseResultXml, h]
    · simp [parseResultXml, h] at h1
  · intro t ht hne hok
    have h : ¬ getAttrD root.attrs resultKey [] = okTok :=
      (getAttrD_result_ok root.attrs).not.mpr hok
    simp [parseResultXml, h, ht, hne]
  · intro htext hok
    have h : ¬ getAttrD root.attrs resultKey [] = okTok :=
      (getAttrD_result_ok root.attrs).not.mpr hok
    cases htext with
    | inl h0 => simp [parseResultXml, h, h0]
    | inr h0 => simp [parseResultXml, h, h0]

/-- C3 counterexample: the device may report a volume already outside
the configured range; volume_up from a reported -50.0 with the default
step 1.0 sends -49.0, below volume_min = -40.0, so the value written is
not clamped into the interval as the claim states. -/
theorem c3_counterexample :
    volumeUpValue defaultVolumeCfg (-50) 1 = -49 ∧
    volumeUpValue defaultVolumeCfg (-50) 1 < defaultVolumeCfg.volumeMin := by
  constructor
  · norm_num [volumeUpValue, defaultVolumeCfg, min_def]
  · norm_num [volumeUpValue, defaultVolumeCfg, min_def]

/-- C3 amended: volume_up sends min(v + step, volume_max) — clamped at
the top only — and volume_down sends max(v − step, volume_min) — clamped
at the bottom only; whenever the reported volume lies inside
[volume_min, volume_max] and the step is nonnegative the sent value
stays inside the interval; the four cited examples hold under the
default bounds. -/
theorem c3_volume_clamping (cfg : VolumeCfg) (v step : ℚ) :
    volumeUpValue cfg v step = min (v + step) cfg.volumeMax ∧
    volumeDownValue cfg v step = max (v - step) cfg.volumeMin ∧
    (cfg.volumeMin ≤ v → v ≤ cfg.volumeMax → 0 ≤ step →
      cfg.volumeMin ≤ volumeUpValue cfg v step ∧
      volumeUpValue cfg v step ≤ cfg.volumeMax ∧
      cfg.volumeMin ≤ volumeDownValue cfg v step ∧
      volumeDownValue cfg v step ≤ cfg.volumeMax) ∧
    volumeUpValue defaultVolumeCfg (-40) 1 = -39 ∧
    volumeUpValue defaultVolumeCfg 0 1 = 0 ∧
    volumeDownValue defaultVolumeCfg 0 1 = -1 ∧
    volumeDownValue defaultVolumeCfg (-40) 1 = -40 := by
  refine ⟨rfl, rfl, fun h1 h2 h3 => ?_, ?_, ?_, ?_, ?_⟩
  · refine ⟨le_min (by linarith) (by linarith), min_le_right _ _,
      le_max_right _ _, max_le (by linarith) (by linarith)⟩
  · norm_num [volumeUpValue, defaultVolumeCfg, min_def]
  · norm_num [volumeUpValue, defaultVolumeCfg, min_def]
  · norm_num [volumeDownValue, defaultVolumeCfg, max_def]
  · norm_num [volumeDownValue, defaultVolumeCfg, max_def]

/-- Stripping the ".xml" suffix and appending it back reconstructs a
file name that ends in ".xml". -/
theorem stripXml_append (f : Str) (h : endsWithXml f = true) :
    stripXml f ++ xmlExt = f ∧ (stripXml f).length + 4 = f.length := by
  have hs : xmlExt <:+ f := by
    have := of_decide_eq_true h
    exact this
  obtain ⟨t, ht⟩ := hs
  subst ht
  have hlen : xmlExt.length = 4 := by decide
  constructor
  · have : stripXml (t ++ xmlExt) = t := by
      unfold stripXml
      rw [List.length_append, hlen]
      have : t.length + 4 - 4 = t.length := by omega
      rw [this]
      exact List.take_left t xmlExt
    rw [this]
  · have : stripXml (t ++ xmlExt) = t := by
      unfold stripXml
      rw [List.length_append, hlen]
      have : t.length + 4 - 4 = t.length := by omega
      rw [this]
      exact List.take_left t xmlExt
    rw [this, List.length_append, hlen]

/-- C7: every profile produced by list_profiles is derived mechanically
from a listed file name ending in ".xml" by stripping that fixed suffix:
the name concatenated with ".xml" reconstructs the file name and the
name is four characters shorter, so the separator occurrence forming the
on-disk suffix boundary lies outside the name; the path is the qualified
file name.  (Dots occurring earlier in the file name remain part of the
name; only the suffix boundary is removed.) -/
theorem c7_profile_name_stripped (pp : Str) (files : List Str) (p : Profile)
    (hp : p ∈ listProfiles pp files) :
    ∃ f ∈ files, endsWithXml f = true ∧ p.name ++ xmlExt = f ∧
      p.name.length + 4 = f.length ∧ p.path = joinPath pp f := by
  induction files with
  | nil => simp [listProfiles] at hp
  | cons f rest ih =>
    by_cases h : endsWithXml f
    · rw [listProfiles, if_pos h] at hp
      rcases List.mem_cons.mp hp with h1 | h1
      · subst h1
        obtain ⟨he, hl⟩ := stripXml_append f h
        exact ⟨f, by simp, h, he, hl, rfl⟩
      · obtain ⟨g, hg, hgx, hge, hgl, hgp⟩ := ih h1
        exact ⟨g, by simp [hg], hgx, hge, hgl, hgp⟩
    · rw [listProfiles, if_neg h] at hp
      obtain ⟨g, hg, hgx, hge, hgl, hgp⟩ := ih hp
      exact ⟨g, by simp [hg], hgx, hge, hgl, hgp⟩

/-- Witness for C7 at a concrete listing holding one profile file whose
name contains a space. -/
theorem c7_profile_name_stripped_witness :
    ∃ f ∈ [("Living Room.xml".toList : Str)], endsWithXml f = true ∧
      ("Living Room".toList : Str) ++ xmlExt = f ∧
      ("Living Room".toList : Str).length + 4 = f.length ∧
      joinPath "pp".toList "Living Room.xml".toList = joinPath "pp".toList f :=
  c7_profile_name_stripped "pp".toList ["Living Room.xml".toList]
    ⟨"Living Room".toList, joinPath "pp".toList "Living Room.xml".toList⟩
    (by decide)

/-- The scan of get_current_profile is a first-match search: the result
is the stripped name of the first listed file that ends in ".xml" and
hashes to the config's checksum. -/
theorem findMatching_eq_find (env : ManagerEnv) (h : Str) (files : List Str) :
    findMatching env (some h) files =
      (files.find? (fun f => endsWithXml f &&
        decide (env.fileHash (joinPath env.profilesPath f) = some h))).map
        stripXml := by
  induction files with
  | nil => rfl
  | cons f rest ih =>
    by_cases h1 : endsWithXml f
    · by_cases h2 : env.fileHash (joinPath env.profilesPath f) = some h
      · rw [findMatching, if_pos h1, if_pos h2,
          List.find?_cons_of_pos _ (by simp [h1, h2])]
        rfl
      · rw [findMatching, if_pos h1, if_neg h2,
          List.find?_cons_of_neg _ (by simp [h1, h2]), ih]
    · rw [findMatching, if_neg (by simp [h1]),
        List.find?_cons_of_neg _ (by simp [h1]), ih]

/-- A sample environment: three distinctly hashed profiles, with the
config a copy of Bedroom.xml. -/
def demoEnv : ManagerEnv where
  profilesPath := "cfgs".toList
  configPath := "cfg".toList
  copyFile := fun _ _ => true
  runCommand := fun _ => ([], [], 0)
  listFiles := ["Bedroom.xml".toList, "Living Room.xml".toList, "Office.xml".toList]
  fileHash := fun p =>
    if p = "cfg".toList then some "h1".toList
    else if p = "cfgs/Bedroom.xml".toList then some "h1".toList
    else if p = "cfgs/Living Room.xml".toList then some "h2".toList
    else if p = "cfgs/Office.xml".toList then some "h3".toList
    else none
  aliveAt := fun _ => false
  waitTimeout := 30
  pollInterval := 1 / 2

/-- The sample environment with the config content matching no profile. -/
def demoEnvMiss : ManagerEnv :=
  { demoEnv with
    fileHash := fun p =>
      if p = "cfg".toList then some "h0".toList else demoEnv.fileHash p }

/-- C2: get_current_profile returns absent when hashing the config path
yields no checksum; otherwise it returns the extension-stripped name of
the first listed file ending in ".xml" whose checksum equals the
config's, and absent when no listed profile matches.  The two sample
environments compute the spec's examples: Bedroom is recognised, and an
unmatched config gives absent. -/
theorem c2_get_current_profile (env : ManagerEnv) :
    (env.fileHash env.configPath = none → getCurrentProfile env = none) ∧
    (∀ h, env.fileHash env.configPath = some h → h ≠ [] →
      getCurrentProfile env =
        (env.listFiles.find? (fun f => endsWithXml f &&
          decide (env.fileHash (joinPath env.profilesPath f) = some h))).map
          stripXml) ∧
    (∀ h, env.fileHash env.configPath = some h → h ≠ [] →
      (∀ f ∈ env.listFiles, endsWithXml f = true →
        env.fileHash (joinPath env.profilesPath f) ≠ some h) →
      getCurrentProfile env = none) ∧
    getCurrentProfile demoEnv = some "Bedroom".toList ∧
    getCurrentProfile demoEnvMiss = none := by
  refine ⟨fun h0 => ?_, fun h h0 hne => ?_, fun h h0 hne hmiss => ?_,
    by decide, by decide⟩
  · simp [getCurrentProfile, h0]
  · simp [getCurrentProfile, h0, hne, findMatching_eq_find]
  · rw [getCurrentProfile, h0]
    show (if h = [] then none else findMatching env (some h) env.listFiles) = none
    rw [if_neg hne, findMatching_eq_find]
    have : env.listFiles.find? (fun f => endsWithXml f &&
        decide (env.fileHash (joinPath env.profilesPath f) = some h)) = none := by
      rw [List.find?_eq_none]
      intro f hf
      by_cases hx : endsWithXml f
      · simp [hx, hmiss f hf hx]
      · simp [hx]
    rw [this]
    rfl

/-- A file ending in ".xml" anywhere in the listing yields its stripped
profile in list_profiles. -/
theorem mem_listProfiles (pp : Str) (pre post : List Str) (f : Str)
    (hx : endsWithXml f = true) :
    (⟨stripXml f, joinPath pp f⟩ : Profile) ∈
      listProfiles pp (pre ++ f :: post) := by
  induction pre with
  | nil => simp [listProfiles, hx]
  | cons g t ih =>
    by_cases hg : endsWithXml g
    · rw [List.cons_append, listProfiles, if_pos hg]
      exact List.mem_cons_of_mem _ ih
    · rw [List.cons_append, listProfiles, if_neg hg]
      exact ih

/-- The scan of get_current_profile passes over a block of files none of
which is an ".xml" file hashing to the config's checksum. -/
theorem findMatching_append_skip (env : ManagerEnv) (h : Str)
    (pre rest : List Str)
    (hpre : ∀ g ∈ pre, endsWithXml g = true →
      env.fileHash (joinPath env.profilesPath g) ≠ some h) :
    findMatching env (some h) (pre ++ rest) = findMatching env (some h) rest := by
  induction pre with
  | nil => rfl
  | cons g t ih =>
    by_cases hg : endsWithXml g
    · rw [List.cons_append, findMatching, if_pos hg,
        if_neg (hpre g (by simp) hg)]
      exact ih (fun g' hg' hx => hpre g' (by simp [hg']) hx)
    · rw [List.cons_append, findMatching, if_neg hg]
      exact ih (fun g' hg' hx => hpre g' (by simp [hg']) hx)

/-- Whatever the outcome, the first externally visible action of
switch_profile is the copy of the candidate path over the config path. -/
theorem switchProfile_first_event (env : ManagerEnv) (n : Str) (w : Bool) :
    (switchProfile env n w).2.head? =
      some (Event.copy (joinPath env.profilesPath (n ++ xmlExt))
        env.configPath) := by
  unfold switchProfile
  by_cases h : env.copyFile (joinPath env.profilesPath (n ++ xmlExt))
      env.configPath = false
  · simp [h]
  · by_cases h2 : (env.runCommand restartCmd).2.2 = 0 <;>
      cases w <;> simp [h, h2]

/-- Two profiles with identical content: every path hashes to "h". -/
def collideEnv : ManagerEnv where
  profilesPath := "p".toList
  configPath := "cfg".toList
  copyFile := fun _ _ => true
  runCommand := fun _ => ([], [], 0)
  listFiles := ["a.xml".toList, "b.xml".toList]
  fileHash := fun _ => some "h".toList
  aliveAt := fun _ => false
  waitTimeout := 30
  pollInterval := 1 / 2

/-- C8 counterexample: profile "b" is listed and its checksum equals the
config's checksum, yet get_current_profile returns "a" — the first
listed match — not "b", so the claim's final clause fails when an
earlier listed profile has the same content. -/
theorem c8_counterexample :
    (⟨"b".toList, "p/b.xml".toList⟩ : Profile) ∈
      listProfiles collideEnv.profilesPath collideEnv.listFiles ∧
    collideEnv.fileHash collideEnv.configPath =
      collideEnv.fileHash (joinPath collideEnv.profilesPath "b.xml".toList) ∧
    collideEnv.fileHash collideEnv.configPath = some "h".toList ∧
    getCurrentProfile collideEnv = some "a".toList ∧
    ("a".toList : Str) ≠ "b".toList := by
  refine ⟨by decide, by decide, by decide, by decide, by decide⟩

/-- C8 amended: a listed file name ending in ".xml" (a name with spaces
included) round-trips without truncation or corruption: the stripped
name re-extended reconstructs the file name, switch_profile's copy
targets exactly the listed file's path, and when the config's checksum
equals that profile's checksum AND no earlier listed ".xml" file has the
same checksum, get_current_profile returns the same name unchanged. -/
theorem c8_round_trip (env : ManagerEnv) (f : Str) (pre post : List Str)
    (w : Bool) (h : Str)
    (hl : env.listFiles = pre ++ f :: post)
    (hx : endsWithXml f = true)
    (hh : env.fileHash env.configPath = some h)
    (hne : h ≠ [])
    (hf : env.fileHash (joinPath env.profilesPath f) = some h)
    (hpre : ∀ g ∈ pre, endsWithXml g = true →
      env.fileHash (joinPath env.profilesPath g) ≠ some h) :
    (⟨stripXml f, joinPath env.profilesPath f⟩ : Profile) ∈
      listProfiles env.profilesPath env.listFiles ∧
    joinPath env.profilesPath (stripXml f ++ xmlExt) =
      joinPath env.profilesPath f ∧
    (switchProfile env (stripXml f) w).2.head? =
      some (Event.copy (joinPath env.profilesPath f) env.configPath) ∧
    getCurrentProfile env = some (stripXml f) := by
  obtain ⟨he, _⟩ := stripXml_append f hx
  refine ⟨?_, ?_, ?_, ?_⟩
  · rw [hl]
    exact mem_listProfiles _ _ _ _ hx
  · rw [he]
  · rw [switchProfile_first_event, he]
  · rw [getCurrentProfile, hh]
    show (if h = [] then none else findMatching env (some h) env.listFiles) =
      some (stripXml f)
    rw [if_neg hne, hl, findMatching_append_skip env h pre _ hpre,
      findMatching, if_pos hx, if_pos hf]

/-- One profile file whose name contains a space, matching the config. -/
def spaceEnv : ManagerEnv where
  profilesPath := "p".toList
  configPath := "cfg".toList
  copyFile := fun _ _ => true
  runCommand := fun _ => ([], [], 0)
  listFiles := ["my profile.xml".toList]
  fileHash := fun q =>
    if q = "cfg".toList then some "h".toList
    else if q = "p/my profile.xml".toList then some "h".toList
    else none
  aliveAt := fun _ => false
  waitTimeout := 30
  pollInterval := 1 / 2

/-- Witness for the amended C8 at the concrete space-named profile. -/
theorem c8_round_trip_witness :
    (⟨stripXml "my profile.xml".toList,
        joinPath spaceEnv.profilesPath "my profile.xml".toList⟩ : Profile) ∈
      listProfiles spaceEnv.profilesPath spaceEnv.listFiles ∧
    joinPath spaceEnv.profilesPath (stripXml "my profile.xml".toList ++ xmlExt) =
      joinPath spaceEnv.profilesPath "my profile.xml".toList ∧
    (switchProfile spaceEnv (stripXml "my profile.xml".toList) false).2.head? =
      some (Event.copy (joinPath spaceEnv.profilesPath "my profile.xml".toList)
        spaceEnv.configPath) ∧
    getCurrentProfile spaceEnv = some (stripXml "my profile.xml".toList) :=
  c8_round_trip spaceEnv "my profile.xml".toList [] [] false "h".toList
    (by rfl) (by decide) (by decide) (by decide) (by decide) (by simp)


/-- Truncation toward zero commutes with negation. -/
theorem truncFinite_neg (m e : Int) :
    truncFinite (-m) e = -(truncFinite m e) := by
  unfold truncFinite
  split
  · ring
  · exact Int.neg_tdiv m _

/-- Truncating the exact value of the decimal ⟨a⟩.⟨b⟩ toward zero keeps
exactly the integer part ⟨a⟩. -/
theorem truncFinite_digits (a b : Str) (hb : ∀ c ∈ b, c.isDigit = true) :
    truncFinite (digitsToNat (a ++ b) : Int) (0 - (b.length : Int)) =
      (digitsToNat a : Int) := by
  cases b with
  | nil => simp [truncFinite]
  | cons c t =>
    have hlen : ¬ (0 : Int) ≤ 0 - (((c :: t).length : Nat) : Int) := by
      simp [List.length_cons]
      omega
    rw [truncFinite, if_neg hlen]
    have htn : (-((0 : Int) - (((c :: t).length : Nat) : Int))).toNat =
        (c :: t).length := by omega
    rw [htn, digitsToNat_append]
    have hlt := digitsToNat_lt (c :: t) hb
    have hpos : 0 < 10 ^ (c :: t).length := Nat.pos_pow_of_pos _ (by omega)
    have hdiv : (digitsToNat a * 10 ^ (c :: t).length + digitsToNat (c :: t)) /
        10 ^ (c :: t).length = digitsToNat a := by
      rw [Nat.add_comm, Nat.add_mul_div_right _ _ hpos, Nat.div_eq_of_lt hlt]
      omega
    have hcast : ((10 : Int) ^ (c :: t).length) =
        (((10 ^ (c :: t).length : Nat)) : Int) := by
      push_cast
      ring
    rw [hcast]
    have hrfl : ((digitsToNat a * 10 ^ (c :: t).length + digitsToNat (c :: t) :
          Nat) : Int).tdiv (((10 ^ (c :: t).length : Nat)) : Int) =
        (((digitsToNat a * 10 ^ (c :: t).length + digitsToNat (c :: t)) /
          10 ^ (c :: t).length : Nat) : Int) := rfl
    rw [hrfl, hdiv]

/-- Python's float() on the decimal string ⟨a⟩.⟨b⟩ (digits around one
point, nothing else) yields exactly the finite value it denotes, and the
same with a leading minus yields the negated value. -/
theorem pyFloatParse_decimal (a b : Str)
    (ha : ∀ c ∈ a, c.isDigit = true) (hb : ∀ c ∈ b, c.isDigit = true)
    (hne : a ≠ []) :
    pyFloatParse (a ++ '.' :: b) =
      some (.finite (digitsToNat (a ++ b) : Int) (0 - (b.length : Int))) ∧
    pyFloatParse ('-' :: (a ++ '.' :: b)) =
      some (.finite (-(digitsToNat (a ++ b) : Int)) (0 - (b.length : Int))) := by
  have hnows : ∀ c ∈ (a ++ '.' :: b), isWs c = false := by
    intro c hc
    rcases List.mem_append.mp hc with h | h
    · exact isDigit_not_ws c (ha c h)
    · rcases List.mem_cons.mp h with rfl | h
      · decide
      · exact isDigit_not_ws c (hb c h)
  have hstrip1 : stripWs (a ++ '.' :: b) = a ++ '.' :: b := stripWs_eq_self hnows
  have hstrip2 : stripWs ('-' :: (a ++ '.' :: b)) = '-' :: (a ++ '.' :: b) := by
    apply stripWs_eq_self
    intro c hc
    rcases List.mem_cons.mp hc with rfl | h
    · decide
    · exact hnows c h
  have hdec : parseDecimal (a ++ '.' :: b) =
      some (digitsToNat (a ++ b), 0 - (b.length : Int)) := by
    obtain ⟨ht, hd⟩ := takeWhile_dropWhile_append a '.' b ha (by decide)
    obtain ⟨htb, hdb⟩ := takeWhile_dropWhile_all b hb
    simp only [parseDecimal, ht, hd, htb, hdb]
    rw [if_neg (by simp [hne])]
    simp [parseExp]
  obtain ⟨c0, a', rfl⟩ : ∃ c0 a', a = c0 :: a' := by
    cases a with
    | nil => exact absurd rfl hne
    | cons x y => exact ⟨x, y, rfl⟩
  have hc0 : c0.isDigit = true := ha c0 (by simp)
  have hsign1 : splitSign ((c0 :: a') ++ '.' :: b) =
      (false, (c0 :: a') ++ '.' :: b) := by
    show splitSign (c0 :: (a' ++ '.' :: b)) = _
    simp [splitSign, isDigit_ne c0 hc0 '-' (by decide),
      isDigit_ne c0 hc0 '+' (by decide)]
  constructor
  · simp only [pyFloatParse, hstrip1, hsign1, hdec]
    simp
  · have hsign2 : splitSign ('-' :: ((c0 :: a') ++ '.' :: b)) =
        (true, (c0 :: a') ++ '.' :: b) := by
      simp [splitSign]
    simp only [pyFloatParse, hstrip2, hsign2, hdec]
    simp

/-- Every integer attribute of a status element set to "75.0". -/
def attrs75 : List (Str × Str) :=
  [("state".toList, "75.0".toList),
   ("track".toList, "75.0".toList),
   ("tracks_total".toList, "75.0".toList),
   ("position".toList, "75.0".toList),
   ("length".toList, "75.0".toList),
   ("min".toList, "75.0".toList),
   ("sec".toList, "75.0".toList),
   ("remain_min".toList, "75.0".toList),
   ("remain_sec".toList, "75.0".toList),
   ("total_min".toList, "75.0".toList),
   ("total_sec".toList, "75.0".toList),
   ("active_rate".toList, "75.0".toList),
   ("active_bits".toList, "75.0".toList),
   ("active_channels".toList, "75.0".toList),
   ("queued".toList, "75.0".toList),
   ("input_fill".toList, "75.0".toList),
   ("output_fill".toList, "75.0".toList),
   ("output_delay".toList, "75.0".toList),
   ("random".toList, "75.0".toList),
   ("repeat".toList, "75.0".toList),
   ("clips".toList, "75.0".toList),
   ("track_serial".toList, "75.0".toList),
   ("transport_serial".toList, "75.0".toList)]

/-- The status those attributes decode to: 75 in every integer field. -/
def status75 : HQPStatus :=
  { defaultStatus with
    state := 75, track := 75, tracks_total := 75, position := 75,
    length := 75, min := 75, sec := 75, remain_min := 75, remain_sec := 75,
    total_min := 75, total_sec := 75, active_rate := 75, active_bits := 75,
    active_channels := 75, queued := 75, input_fill := 75, output_fill := 75,
    output_delay := 75, random := 75, «repeat» := 75, clips := 75,
    track_serial := 75, transport_serial := 75 }

/-- C6: _parse_int accepts a decimal-pointed value ⟨a⟩.⟨b⟩ for an
integer field and truncates it toward zero — the result is the integer
part ⟨a⟩, also under a leading minus sign (toward zero, not floor); in
particular "75.0" decodes to 75 and a status element carrying "75.0" in
every integer attribute decodes without failure to 75 everywhere. -/
theorem c6_int_fields_truncate (a b : Str) (d : Int)
    (ha : ∀ c ∈ a, c.isDigit = true) (hb : ∀ c ∈ b, c.isDigit = true)
    (hne : a ≠ []) :
    parseIntE (a ++ '.' :: b) d = .ok (digitsToNat a : Int) ∧
    parseIntE ('-' :: (a ++ '.' :: b)) d = .ok (-(digitsToNat a : Int)) ∧
    parseIntE "75.0".toList 0 = .ok 75 ∧
    parseStatusXml ⟨"Status".toList, attrs75, none⟩ = .ok status75 := by
  obtain ⟨h1, h2⟩ := pyFloatParse_decimal a b ha hb hne
  refine ⟨?_, ?_, by decide, by rfl⟩
  · unfold parseIntE
    rw [if_neg (by simp [hne]), h1]
    show Except.ok (truncFinite (digitsToNat (a ++ b) : Int)
      (0 - (b.length : Int))) = _
    rw [truncFinite_digits a b hb]
  · unfold parseIntE
    rw [if_neg (by simp), h2]
    show Except.ok (truncFinite (-(digitsToNat (a ++ b) : Int))
      (0 - (b.length : Int))) = _
    rw [truncFinite_neg, truncFinite_digits a b hb]

/-- Witness for C6 at the spec's example "75.0" (and "-75.0"). -/
theorem c6_int_fields_truncate_witness :
    parseIntE ("75".toList ++ '.' :: "0".toList) 0 =
      .ok (digitsToNat "75".toList : Int) ∧
    parseIntE ('-' :: ("75".toList ++ '.' :: "0".toList)) 0 =
      .ok (-(digitsToNat "75".toList : Int)) ∧
    parseIntE "75.0".toList 0 = .ok 75 ∧
    parseStatusXml ⟨"Status".toList, attrs75, none⟩ = .ok status75 :=
  c6_int_fields_truncate "75".toList "0".toList 0 (by decide) (by decide)
    (by decide)

/-- Replacing a single character is a character-by-character expansion. -/
theorem pyReplaceChar_expand (pat : Char) (rep : Str) (s : Str) :
    pyReplaceChar pat rep s =
      expandAll (fun c => if c = pat then rep else [c]) s := by
  induction s with
  | nil => rfl
  | cons c t ih => simp [pyReplaceChar, expandAll, ih]

/-- expandAll distributes over concatenation. -/
theorem expandAll_append (f : Char → Str) (a b : Str) :
    expandAll f (a ++ b) = expandAll f a ++ expandAll f b := by
  induction a with
  | nil => rfl
  | cons c t ih => simp [expandAll, ih]

/-- Composing two expansions is one expansion. -/
theorem expandAll_comp (f g : Char → Str) (s : Str) :
    expandAll f (expandAll g s) =
      expandAll (fun c => expandAll f (g c)) s := by
  induction s with
  | nil => rfl
  | cons c t ih => simp [expandAll, expandAll_append, ih]

/-- expandAll only depends on the expansion pointwise. -/
theorem expandAll_congr {f g : Char → Str} (h : ∀ c, f c = g c) (s : Str) :
    expandAll f s = expandAll g s := by
  induction s with
  | nil => rfl
  | cons c t ih => simp [expandAll, h c, ih]

/-- The four sequential replaces of playlist_add act as one
character-by-character escape: the ampersand pass runs first, so the
ampersands introduced by the later entity replacements are never
re-examined, and each character maps independently through escChar. -/
theorem escapeUri_expand (uri : Str) : escapeUri uri = expandAll escChar uri := by
  unfold escapeUri
  rw [pyReplaceChar_expand, pyReplaceChar_expand, pyReplaceChar_expand,
    pyReplaceChar_expand, expandAll_comp, expandAll_comp, expandAll_comp]
  apply expandAll_congr
  intro c
  by_cases h1 : c = '&'
  · subst h1
    decide
  · by_cases h2 : c = '<'
    · subst h2
      decide
    · by_cases h3 : c = '>'
      · subst h3
        decide
      · by_cases h4 : c = '"'
        · subst h4
          decide
        · simp [escChar, expandAll, h1, h2, h3, h4]

/-- An amp entity block passes through the ampSafe scan. -/
theorem ampSafe_amp (u : Str) :
    ampSafe ('&' :: 'a' :: 'm' :: 'p' :: ';' :: u) = ampSafe u := rfl

/-- An lt entity block passes through the ampSafe scan. -/
theorem ampSafe_lt (u : Str) :
    ampSafe ('&' :: 'l' :: 't' :: ';' :: u) = ampSafe u := rfl

/-- A gt entity block passes through the ampSafe scan. -/
theorem ampSafe_gt (u : Str) :
    ampSafe ('&' :: 'g' :: 't' :: ';' :: u) = ampSafe u := rfl

/-- A quot entity block passes through the ampSafe scan. -/
theorem ampSafe_quot (u : Str) :
    ampSafe ('&' :: 'q' :: 'u' :: 'o' :: 't' :: ';' :: u) = ampSafe u := rfl

/-- A character other than an ampersand passes through the ampSafe scan. -/
theorem ampSafe_cons_ne (c : Char) (h : ¬ c = '&') (u : Str) :
    ampSafe (c :: u) = ampSafe u := by
  rw [ampSafe.eq_def]
  simp [h]

/-- The escaped string holds no raw angle bracket or double quote, and
every ampersand in it opens one of the four emitted entities. -/
theorem escape_safe (s : Str) :
    '<' ∉ expandAll escChar s ∧ '>' ∉ expandAll escChar s ∧
    '"' ∉ expandAll escChar s ∧ ampSafe (expandAll escChar s) = true := by
  induction s with
  | nil => exact ⟨by simp [expandAll], by simp [expandAll], by simp [expandAll], rfl⟩
  | cons c t ih =>
    obtain ⟨i1, i2, i3, i4⟩ := ih
    by_cases h1 : c = '&'
    · subst h1
      have hx : expandAll escChar ('&' :: t) =
          '&' :: 'a' :: 'm' :: 'p' :: ';' :: expandAll escChar t := rfl
      rw [hx]
      refine ⟨by simp [i1], by simp [i2], by simp [i3], ?_⟩
      rw [ampSafe_amp]
      exact i4
    · by_cases h2 : c = '<'
      · subst h2
        have hx : expandAll escChar ('<' :: t) =
            '&' :: 'l' :: 't' :: ';' :: expandAll escChar t := rfl
        rw [hx]
        refine ⟨by simp [i1], by simp [i2], by simp [i3], ?_⟩
        rw [ampSafe_lt]
        exact i4
      · by_cases h3 : c = '>'
        · subst h3
          have hx : expandAll escChar ('>' :: t) =
              '&' :: 'g' :: 't' :: ';' :: expandAll escChar t := rfl
          rw [hx]
          refine ⟨by simp [i1], by simp [i2], by simp [i3], ?_⟩
          rw [ampSafe_gt]
          exact i4
        · by_cases h4 : c = '"'
          · subst h4
            have hx : expandAll escChar ('"' :: t) =
                '&' :: 'q' :: 'u' :: 'o' :: 't' :: ';' :: expandAll escChar t := rfl
            rw [hx]
            refine ⟨by simp [i1], by simp [i2], by simp [i3], ?_⟩
            rw [ampSafe_quot]
            exact i4
          · have hx : expandAll escChar (c :: t) =
                escChar c ++ expandAll escChar t := rfl
            have hesc : escChar c = [c] := by simp [escChar, h1, h2, h3, h4]
            rw [hx, hesc]
            refine ⟨?_, ?_, ?_, ?_⟩
            · simp [i1]
              exact fun he => h2 he.symm
            · simp [i2]
              exact fun he => h3 he.symm
            · simp [i3]
              exact fun he => h4 he.symm
            · show ampSafe (c :: expandAll escChar t) = true
              rw [ampSafe_cons_ne c h1]
              exact i4

/-- C9: playlist_add escapes the XML metacharacters of the uri before
embedding it: the escape acts character by character through escChar,
the escaped text holds no raw angle bracket or double quote, every
ampersand in it opens one of the emitted entities, and the command embeds
it inside a double-quoted attribute (in which a raw apostrophe needs no
escaping, matching the claim's "implicitly, when used unquoted": the
attribute is quoted, so no apostrophe escape is required or performed). -/
theorem c9_playlist_add_escapes (uri : Str) :
    escapeUri uri = expandAll escChar uri ∧
    '<' ∉ escapeUri uri ∧
    '>' ∉ escapeUri uri ∧
    '"' ∉ escapeUri uri ∧
    ampSafe (escapeUri uri) = true ∧
    playlistAddCmd uri =
      "<PlaylistAdd uri=\"".toList ++ escapeUri uri ++ "\"/>".toList := by
  have he := escapeUri_expand uri
  obtain ⟨s1, s2, s3, s4⟩ := escape_safe uri
  refine ⟨he, ?_, ?_, ?_, ?_, rfl⟩
  · rw [he]
    exact s1
  · rw [he]
    exact s2
  · rw [he]
    exact s3
  · rw [he]
    exact s4

/-- C10: _parse_int is total on empty, unparseable and NaN input (the
default is returned, no exception), but NOT on an infinity: Python's
`int(float("inf"))` raises OverflowError, which the function's
`except (ValueError, TypeError)` clause does not catch, so
parse_status_xml also fails on a numeric attribute holding "inf" — the
claim's "never raises" is the intent, and the code slips on this
input. -/
theorem c10_parse_int_overflow :
    parseIntE "inf".toList 0 = .error .overflow ∧
    parseIntE "Infinity".toList 0 = .error .overflow ∧
    parseIntE "-inf".toList 0 = .error .overflow ∧
    parseIntE [] 5 = .ok 5 ∧
    parseIntE "abc".toList 0 = .ok 0 ∧
    parseIntE "nan".toList 7 = .ok 7 ∧
    parseStatusXml ⟨"Status".toList, [("state".toList, "inf".toList)], none⟩ =
      .error .overflow := by
  exact ⟨by decide, by decide, by decide, by decide, by decide, by decide, by rfl⟩
